import Mathlib

/-!
useVityaEffect_bot: session store, stream relay and backoff executor

A shallow embedding of `bot.go`, `handlers.go` and `utils.go`.

* Instants (`time.Time`) are integers counting nanoseconds since the Unix epoch;
  durations (`time.Duration`) are `int64` nanosecond counts, modelled as integers with
  explicit saturation (`Time.Sub`) or wrap-around (`*`) where Go has them.
* Every reading of the wall clock and every answer of an external service
  (Telegram `Send`, the completion stream, the voice pipeline) is an explicit input.
* Go `error` values are represented by their message (`err.Error()`); `nil` is `none`.
* `int` is taken to be 64 bits wide.
* A handler run is modelled on its own, with no other goroutine interleaved; the
  mutexes and the log output are left out.
-/

set_option autoImplicit false

namespace VityaBot

/-! ## Durations -/

/-- The constant `time.Millisecond`, in nanoseconds. -/
def millisecond : Int := 1000000

/-- The constant `time.Second`, in nanoseconds. -/
def second : Int := 1000000000

/-- The constant `time.Minute`, in nanoseconds. -/
def minute : Int := 60 * second

/-- Largest `int64`, which is also the largest `time.Duration`. -/
def maxInt64 : Int := 9223372036854775807

/-- Smallest `int64`, which is also the smallest `time.Duration`. -/
def minInt64 : Int := -9223372036854775808

/-- Result of an `int64` operation whose mathematical value is `x`: two's complement
wrap-around modulo `2^64`. -/
def wrap64 (x : Int) : Int :=
  (x + 9223372036854775808) % 18446744073709551616 - 9223372036854775808

/-- The instant `time.Time{}` (January 1, year 1, 00:00 UTC) relative to the Unix epoch. -/
def zeroTime : Int := -62135596800 * second

/-- The duration `t.Sub(u)`: the difference, saturated to the `int64` range. -/
def timeSub (t u : Int) : Int :=
  if t - u > maxInt64 then maxInt64
  else if t - u < minInt64 then minInt64
  else t - u

/-- The duration `time.Since(u)` when the clock reads `now`, that is `time.Now().Sub(u)`. -/
def since (now u : Int) : Int := timeSub now u

/-! ## Backoff executor (`utils.go`) -/

/-- The test `strings.Contains(s, sub)` on the characters of the two strings. -/
def containsChars (s sub : List Char) : Bool :=
  match s with
  | [] => sub.isEmpty
  | c :: cs => sub.isPrefixOf (c :: cs) || containsChars cs sub

/-- The test `strings.Contains(s, sub)`. -/
def stringsContains (s sub : String) : Bool :=
  containsChars s.toList sub.toList

/-- The condition under which `retryWithBackoff` treats an error as a rate-limit signal. -/
def isRateLimit (e : String) : Bool :=
  stringsContains e "Flood control exceeded" || stringsContains e "Too Many Requests"

/-- An attempt to match the regular expression `retry after (\d+)` at the very start of
`s`; the result is the text of the capture group (the longest run of digits). -/
def matchRetryAfterHere (s : List Char) : Option (List Char) :=
  if "retry after ".toList.isPrefixOf s then
    let ds := (s.drop 12).takeWhile Char.isDigit
    if ds.isEmpty then none else some ds
  else none

/-- The call `re.FindStringSubmatch(s)` for `retry after (\d+)`: the leftmost match,
returned as its capture group `matches[1]`; `none` when there is no match. -/
def findRetryAfter : List Char → Option (List Char)
  | [] => none
  | c :: cs =>
    match matchRetryAfterHere (c :: cs) with
    | some ds => some ds
    | none => findRetryAfter cs

/-- Decimal value of a run of ASCII digits. -/
def digitsValue (ds : List Char) : Nat :=
  ds.foldl (fun acc c => acc * 10 + (c.toNat - 48)) 0

/-- The call `strconv.Atoi` on a non-empty run of digits: a value above the largest
`int` is a range error (`none`). -/
def atoiDigits (ds : List Char) : Option Int :=
  if (digitsValue ds : Int) ≤ maxInt64 then some (digitsValue ds : Int) else none

/-- The number of seconds `retryWithBackoff` extracts from an error message: the regular
expression matched and `strconv.Atoi` accepted its capture. -/
def retrySeconds (e : String) : Option Int :=
  match findRetryAfter e.toList with
  | some ds => atoiDigits ds
  | none => none

/-- What one call of `retryWithBackoff` did: the error it returned (`none` is `nil`), how
many times it invoked the operation, and the arguments of its `time.Sleep` calls in
order. -/
structure RetryResult where
  err : Option String
  calls : Nat
  sleeps : List Int
  deriving DecidableEq

/-- The `for attempt := 0; attempt < maxRetries; attempt++` loop of `retryWithBackoff`.
The first argument counts the iterations still allowed by the loop condition
(`maxRetries - attempt`); `fn i` is what the `i`-th invocation (from 0) of the operation
returns. -/
def retryLoop (fn : Nat → Option String) (maxRetries : Int) :
    Nat → Nat → Int → List Int → RetryResult
  | 0, attempt, _, sleeps =>
    { err := some "max retries exceeded", calls := attempt, sleeps := sleeps }
  | remaining + 1, attempt, delay, sleeps =>
    match fn attempt with
    | none => { err := none, calls := attempt + 1, sleeps := sleeps }
    | some e =>
      if isRateLimit e then
        if (attempt : Int) = maxRetries - 1 then
          { err := some e, calls := attempt + 1, sleeps := sleeps }
        else
          let delay1 :=
            match retrySeconds e with
            | some n => wrap64 (n * second)
            | none => delay
          retryLoop fn maxRetries remaining (attempt + 1) (wrap64 (delay1 * 2))
            (sleeps ++ [delay1])
      else
        { err := some e, calls := attempt + 1, sleeps := sleeps }

/-- The method `Bot.retryWithBackoff(fn, maxRetries)`. -/
def retryWithBackoff (fn : Nat → Option String) (maxRetries : Int) : RetryResult :=
  retryLoop fn maxRetries maxRetries.toNat 0 second []

/-- The delays of the backoff executor as the specification words them: a server hint
replaces the delay, otherwise the previous delay is kept; the delay is slept and then
doubled for the next round. `delay` is the delay carried into the first round. -/
def backoffDelays (delay : Int) : List String → List Int
  | [] => []
  | e :: es =>
    let d :=
      match retrySeconds e with
      | some n => wrap64 (n * second)
      | none => delay
    d :: backoffDelays (wrap64 (d * 2)) es

/-- An operation failing with the same message on every invocation. -/
def alwaysFailing (msg : String) : Nat → Option String :=
  fun _ => some msg

/-- An operation failing with the listed messages, one per invocation, and succeeding
afterwards. -/
def failingThenOk (errs : List String) : Nat → Option String :=
  fun i => errs[i]?

/-! ## Session store (`bot.go`) -/

/-- The `Role` and `Content` of an `openai.ChatCompletionMessage`. -/
structure ChatCompletionMessage where
  Role : String
  Content : String
  deriving DecidableEq

/-- The constant `openai.ChatMessageRoleUser`. -/
def ChatMessageRoleUser : String := "user"

/-- The constant `openai.ChatMessageRoleAssistant`. -/
def ChatMessageRoleAssistant : String := "assistant"

/-- The struct `UserContext` without its mutex: the message history and the instant of
the last update. -/
structure UserContext where
  Messages : List ChatCompletionMessage
  LastUpdate : Int
  deriving DecidableEq

/-- The map `Bot.userContexts`. A handler holds a pointer to the `UserContext` stored
under its user id, so a write through that pointer is a write to the entry of the map. -/
abbrev UserContexts := Int → Option UserContext

/-- The inactivity threshold `3*time.Minute` of `getUserContext` and `cleanOldContexts`. -/
def inactivityLimit : Int := 3 * minute

/-- The method `Bot.getUserContext(userID)`. `tSince` is the clock reading inside
`time.Since(context.LastUpdate)` and `tNow` the reading of the `time.Now()` stored in
`LastUpdate`. The result is the map afterwards and the session returned. -/
def getUserContext (userContexts : UserContexts) (userID : Int) (tSince tNow : Int) :
    UserContexts × UserContext :=
  match userContexts userID with
  | none =>
    let context : UserContext := { Messages := [], LastUpdate := tNow }
    (Function.update userContexts userID (some context), context)
  | some context =>
    let context1 : UserContext :=
      if since tSince context.LastUpdate > inactivityLimit then
        { context with Messages := [] }
      else context
    let context2 : UserContext := { context1 with LastUpdate := tNow }
    (Function.update userContexts userID (some context2), context2)

/-- One firing of the ticker in `Bot.cleanOldContexts`: the pass over the whole map.
`now userID` is the clock reading inside `time.Since` when the entry of `userID` is
tested. -/
def cleanOldContextsPass (userContexts : UserContexts) (now : Int → Int) : UserContexts :=
  fun userID =>
    match userContexts userID with
    | none => none
    | some context =>
      if since (now userID) context.LastUpdate > inactivityLimit then none
      else some context

/-! ## Handlers (`handlers.go`) -/

/-- A request handed to `b.tg.Send`. -/
inductive Chattable where
  | message (chatID : Int) (text : String) (parseMode : String)
  | chatAction (chatID : Int) (action : String)
  | editMessageText (chatID : Int) (messageID : Int) (text : String) (parseMode : String)
  deriving DecidableEq

/-- One call of `b.tg.Send`: the request and whether the call returned an error. -/
structure Sent where
  req : Chattable
  err : Bool
  deriving DecidableEq

/-- The fields of a `tgbotapi.Update` the handlers read: the sender, the chat, the text,
and the file ids of a voice message or video note when present. -/
structure Update where
  userID : Int
  chatID : Int
  text : String
  voice : Option String
  videoNote : Option String

/-- The method `Bot.checkChannelSubscription`: its first statement is `return true`. -/
def checkChannelSubscription (_userID _chatID : Int) : Bool := true

/-- The method `Bot.handleNew(update)`. `tSince` and `tNow` are the clock readings of
`getUserContext`, `tClear` the reading stored after the history is cleared, `sendErr`
whether sending the confirmation failed (the result is ignored). -/
def handleNew (userContexts : UserContexts) (update : Update) (tSince tNow tClear : Int)
    (sendErr : Bool) : UserContexts × List Sent :=
  if !checkChannelSubscription update.userID update.chatID then (userContexts, [])
  else
    let got := getUserContext userContexts update.userID tSince tNow
    let userContext : UserContext := { got.2 with Messages := [], LastUpdate := tClear }
    (Function.update got.1 update.userID (some userContext),
      [{ req := .message update.chatID "🆕 Starting new dialog ✅" "Markdown", err := sendErr }])

/-- A value returned by a successful `stream.Recv()`: the `Delta.Content` of every entry
of `response.Choices`. -/
structure StreamResponse where
  choices : List String

/-- One successful `stream.Recv()` together with what the outside world answers while the
loop body handles it: the clock reading inside `time.Since(lastEditTime)`, whether the
Markdown edit and the plain retry fail, and the clock reading stored in `lastEditTime`. -/
structure RelayStep where
  response : StreamResponse
  tSince : Int
  mdErr : Bool
  plainErr : Bool
  tNow : Int

/-- A completion stream: the successful reads in order, then the message of the error
that the next `Recv` returns ("EOF" at a normal end). -/
structure CompletionStream where
  steps : List RelayStep
  stop : String

/-- The constant `editThrottleInterval`. -/
def editThrottleInterval : Int := 500 * millisecond

/-- The edit-and-fallback block of `handleMessage`: the edit is sent with
`ParseMode = "Markdown"`; when that call fails the same edit is sent with
`ParseMode = ""`, and the result of the retry is ignored. -/
def sendEdit (chatID messageID : Int) (text : String) (mdErr plainErr : Bool) : List Sent :=
  if mdErr then
    [{ req := .editMessageText chatID messageID text "Markdown", err := true },
     { req := .editMessageText chatID messageID text "", err := plainErr }]
  else
    [{ req := .editMessageText chatID messageID text "Markdown", err := false }]

/-- A throttled edit of the relay loop: the text it carried, the clock reading at which
the throttle test passed, and the reading then stored in `lastEditTime`. -/
structure EditMark where
  text : String
  checkedAt : Int
  recordedAt : Int
  deriving DecidableEq

/-- State of the relay when the `for` loop is left: the accumulated `responseText`, the
last `lastEditTime`, the `Send` calls made in order, and the throttled edits made. -/
structure RelayOut where
  responseText : String
  lastEditTime : Int
  sends : List Sent
  edits : List EditMark
  deriving DecidableEq

/-- The `for` loop of `handleMessage` over the successful reads of the stream, started
with the given `responseText` and `lastEditTime`; the loop is left at the first `Recv`
error, whatever its message. -/
def relayLoop (chatID messageID : Int) : List RelayStep → String → Int → RelayOut
  | [], responseText, lastEditTime =>
    { responseText := responseText, lastEditTime := lastEditTime, sends := [], edits := [] }
  | step :: rest, responseText, lastEditTime =>
    if step.response.choices.length > 0 ∧ step.response.choices.headD "" ≠ "" then
      let responseText1 := responseText ++ step.response.choices.headD ""
      if since step.tSince lastEditTime > editThrottleInterval then
        let out := relayLoop chatID messageID rest responseText1 step.tNow
        { out with
          sends := sendEdit chatID messageID responseText1 step.mdErr step.plainErr ++ out.sends
          edits := { text := responseText1, checkedAt := step.tSince,
                     recordedAt := step.tNow } :: out.edits }
      else relayLoop chatID messageID rest responseText1 lastEditTime
    else relayLoop chatID messageID rest responseText lastEditTime

/-- The final edit of `handleMessage`, made only when `responseText` is not empty. -/
def finalEdit (chatID messageID : Int) (responseText : String) (mdErr plainErr : Bool) :
    List Sent :=
  if responseText ≠ "" then sendEdit chatID messageID responseText mdErr plainErr else []

/-- What the outside world answers during one run of `handleMessage`. -/
structure MessageEnv where
  /-- Result of `downloadVoiceMessage(fileID)`. -/
  download : Except String String
  /-- Result of `transcribeAudio(audioPath)`. -/
  transcribe : Except String String
  /-- Whether sending the voice apology fails. -/
  apologyErr : Bool
  /-- Clock reading inside `time.Since` in `getUserContext`. -/
  tSince : Int
  /-- Clock reading stored by `getUserContext`. -/
  tNow : Int
  /-- Clock reading stored after the user entry is appended. -/
  tUser : Int
  /-- Whether sending the typing action fails. -/
  typingErr : Bool
  /-- Result of `CreateChatCompletionStream`. -/
  stream : Except String CompletionStream
  /-- Whether sending the message about the failed stream fails. -/
  streamReplyErr : Bool
  /-- Result of sending the placeholder: the id of the sent message. -/
  placeholder : Except String Int
  /-- Whether the Markdown attempt of the final edit fails. -/
  finalMdErr : Bool
  /-- Whether the plain retry of the final edit fails. -/
  finalPlainErr : Bool

/-- The first part of `handleMessage`: the text of the message, or the transcription of
its voice message or video note; `none` when the voice pipeline failed. -/
def userTextOf (update : Update) (env : MessageEnv) : Option String :=
  if update.voice.isSome ∨ update.videoNote.isSome then
    match env.download with
    | .error _ => none
    | .ok _ =>
      match env.transcribe with
      | .error _ => none
      | .ok userText => some userText
  else some update.text

/-- Result of a run of `handleMessage`: the session map afterwards and every `b.tg.Send`
call in order. -/
structure Handled where
  userContexts : UserContexts
  sends : List Sent

/-- The method `Bot.handleMessage(update)`. -/
def handleMessage (userContexts : UserContexts) (update : Update) (env : MessageEnv) :
    Handled :=
  if !checkChannelSubscription update.userID update.chatID then
    { userContexts := userContexts, sends := [] }
  else
    match userTextOf update env with
    | none =>
      { userContexts := userContexts,
        sends := [{ req := .message update.chatID
                      "Sorry, I couldn't process your voice message." "",
                    err := env.apologyErr }] }
    | some userText =>
      let got := getUserContext userContexts update.userID env.tSince env.tNow
      let userContext : UserContext :=
        { Messages := got.2.Messages ++
            [{ Role := ChatMessageRoleUser, Content := userText }],
          LastUpdate := env.tUser }
      let userContexts1 := Function.update got.1 update.userID (some userContext)
      let typing : Sent := { req := .chatAction update.chatID "typing", err := env.typingErr }
      match env.stream with
      | .error _ =>
        { userContexts := userContexts1,
          sends := [typing,
            { req := .message update.chatID
                "Извините, произошла ошибка. Попробуйте позже." "",
              err := env.streamReplyErr }] }
      | .ok stream =>
        match env.placeholder with
        | .error _ =>
          { userContexts := userContexts1,
            sends := [typing, { req := .message update.chatID "..." "", err := true }] }
        | .ok messageID =>
          let out := relayLoop update.chatID messageID stream.steps "" zeroTime
          let userContext1 : UserContext :=
            { userContext with
              Messages := userContext.Messages ++
                [{ Role := ChatMessageRoleAssistant, Content := out.responseText }] }
          { userContexts := Function.update userContexts1 update.userID (some userContext1),
            sends := [typing, { req := .message update.chatID "..." "", err := false }] ++
              out.sends ++
              finalEdit update.chatID messageID out.responseText env.finalMdErr
                env.finalPlainErr }

/-- The increment a stream read contributes to `responseText`: the content of its first
choice, or nothing when it has no choice. -/
def increment (step : RelayStep) : String :=
  step.response.choices.headD ""

/-- The concatenation, in arrival order, of the increments of the given reads. -/
def concatIncrements (steps : List RelayStep) : String :=
  steps.foldl (fun acc step => acc ++ increment step) ""

/-- A trace of `Send` calls has the fallback shape when it is a sequence of blocks, each
either one successful Markdown edit or one failed Markdown edit followed by exactly one
plain edit of the same chat, message and text. -/
def fallbackShaped : List Sent → Bool
  | [] => true
  | { req := .editMessageText _ _ _ "Markdown", err := false } :: rest => fallbackShaped rest
  | { req := .editMessageText c m t "Markdown", err := true } ::
      { req := .editMessageText c1 m1 t1 "", err := _ } :: rest =>
    decide (c1 = c ∧ m1 = m ∧ t1 = t) && fallbackShaped rest
  | _ => false

/-- A read that delivers the text `content` as its only choice at clock reading `t`
(the same reading before and after an edit), all edits succeeding. -/
def plainStep (content : String) (t : Int) : RelayStep :=
  { response := { choices := [content] }, tSince := t, mdErr := false, plainErr := false,
    tNow := t }

/-- Whether a `Send` call is the Markdown attempt of an edit. -/
def isMarkdownEdit (sent : Sent) : Bool :=
  match sent.req with
  | .editMessageText _ _ _ parseMode => parseMode == "Markdown"
  | _ => false

/-- The typing action `handleMessage` sends before it opens the stream. -/
def typingSent (update : Update) (env : MessageEnv) : Sent :=
  { req := .chatAction update.chatID "typing", err := env.typingErr }

/-- The placeholder message "..." of `handleMessage`, sent successfully. -/
def placeholderSent (update : Update) : Sent :=
  { req := .message update.chatID "..." "", err := false }

/-- A text message "hi" of user 7 in chat 7. -/
def sampleUpdate : Update :=
  { userID := 7, chatID := 7, text := "hi", voice := none, videoNote := none }

/-- A run in which every clock reading of the session code is 100 s, the stream opens
and delivers `steps` before its `Recv` fails with `stop`, the placeholder gets message
id 42, and the final edit succeeds. -/
def sampleEnv (steps : List RelayStep) (stop : String) : MessageEnv :=
  { download := .error "no voice", transcribe := .error "no voice", apologyErr := false,
    tSince := 100 * second, tNow := 100 * second, tUser := 100 * second,
    typingErr := false, stream := .ok { steps := steps, stop := stop }, streamReplyErr := false,
    placeholder := .ok 42, finalMdErr := false, finalPlainErr := false }

/-- The session map with no session at all. -/
def emptyContexts : UserContexts := fun _ => none

/-- Increments "x" arriving every 100 ms over 2 seconds, the first at 1700000000 s. -/
def ticks100ms : List RelayStep :=
  (List.range 21).map
    (fun i => plainStep "x" (1700000000 * second + (i : Int) * (100 * millisecond)))

/-- An edit attempt as the specification words it: the edit is first sent with Markdown
formatting; if and only if that attempt fails, the same edit (same chat, same message,
same text) is sent exactly once more with plain formatting. -/
def specEditAttempt (chatID messageID : Int) (text : String) (mdFails plainFails : Bool) :
    List Sent :=
  Sent.mk (.editMessageText chatID messageID text "Markdown") mdFails ::
    (if mdFails then [Sent.mk (.editMessageText chatID messageID text "") plainFails]
     else [])

/-- A throttled edit of the relay loop together with the stream read that caused it. -/
structure ThrottledEdit where
  text : String
  step : RelayStep

/-- The stream reads at which the `for` loop of `handleMessage` edits the placeholder,
each with the `responseText` accumulated at that point: the reads with a non-empty
increment for which `time.Since(lastEditTime) > editThrottleInterval`. -/
def throttledEdits : List RelayStep → String → Int → List ThrottledEdit
  | [], _, _ => []
  | step :: rest, responseText, lastEditTime =>
    if step.response.choices.length > 0 ∧ step.response.choices.headD "" ≠ "" then
      let responseText1 := responseText ++ step.response.choices.headD ""
      if since step.tSince lastEditTime > editThrottleInterval then
        { text := responseText1, step := step } ::
          throttledEdits rest responseText1 step.tNow
      else throttledEdits rest responseText1 lastEditTime
    else throttledEdits rest responseText lastEditTime

/-- A read delivering `content` at clock reading `t` during which the Markdown edit and
the plain retry both fail. -/
def failingStep (content : String) (t : Int) : RelayStep :=
  { response := { choices := [content] }, tSince := t, mdErr := true, plainErr := true,
    tNow := t }

/-- The run of `sampleEnv` in which the final edit fails in both formats as well. -/
def failingEnv (steps : List RelayStep) (stop : String) : MessageEnv :=
  { sampleEnv steps stop with finalMdErr := true, finalPlainErr := true }

/-! ## Backoff executor: lemmas -/

theorem wrap64_of_inRange (x : Int) (h1 : minInt64 ≤ x) (h2 : x ≤ maxInt64) : wrap64 x = x := by
  unfold wrap64
  unfold minInt64 at h1
  unfold maxInt64 at h2
  omega

theorem wrap64_seconds (n : Int) (h0 : 0 ≤ n) (h : n ≤ 9223372036) :
    wrap64 (n * second) = n * second := by
  apply wrap64_of_inRange
  · unfold minInt64 second; omega
  · unfold maxInt64 second; omega

theorem retryLoop_exhaust (fn : Nat → Option String) (maxRetries : Int)
    (hfail : ∀ i, ∃ e, fn i = some e ∧ isRateLimit e = true) :
    ∀ (r a : Nat) (d : Int) (sl : List Int), (a : Int) + (r + 1) = maxRetries →
      (retryLoop fn maxRetries (r + 1) a d sl).calls = a + r + 1 ∧
      (retryLoop fn maxRetries (r + 1) a d sl).err = fn (a + r) ∧
      (retryLoop fn maxRetries (r + 1) a d sl).sleeps.length = sl.length + r := by
  intro r
  induction r with
  | zero =>
    intro a d sl h
    obtain ⟨e, he, hr⟩ := hfail a
    have hlast : (a : Int) = maxRetries - 1 := by omega
    simp [retryLoop, he, hr, hlast]
  | succ r ih =>
    intro a d sl h
    obtain ⟨e, he, hr⟩ := hfail a
    have hlast : ¬ ((a : Int) = maxRetries - 1) := by omega
    have h2 : ((a + 1 : Nat) : Int) + (r + 1) = maxRetries := by push_cast; omega
    rw [retryLoop]
    simp only [he, hr, hlast, if_true, if_false]
    obtain ⟨i1, i2, i3⟩ := ih (a + 1) (wrap64 ((match retrySeconds e with
            | some n => wrap64 (n * second)
            | none => d) * 2)) (sl ++ [match retrySeconds e with
            | some n => wrap64 (n * second)
            | none => d]) h2
    refine ⟨?_, ?_, ?_⟩
    · rw [i1]; omega
    · rw [i2]; congr 1; omega
    · rw [i3]; simp; omega

theorem retryLoop_success (fn : Nat → Option String) (maxRetries : Int) :
    ∀ (errs : List String) (r a : Nat) (d : Int) (sl : List Int),
      (a : Int) + r = maxRetries → errs.length < r →
      (∀ i e, errs[i]? = some e → fn (a + i) = some e ∧ isRateLimit e = true) →
      fn (a + errs.length) = none →
      retryLoop fn maxRetries r a d sl =
        { err := none, calls := a + errs.length + 1, sleeps := sl ++ backoffDelays d errs } := by
  intro errs
  induction errs with
  | nil =>
    intro r a d sl _ hlen _ hok
    obtain ⟨r, rfl⟩ : ∃ r1, r = r1 + 1 := ⟨r - 1, by simp at hlen; omega⟩
    simp at hok
    simp [retryLoop, hok, backoffDelays]
  | cons e es ih =>
    intro r a d sl hsum hlen hfail hok
    obtain ⟨r, rfl⟩ : ∃ r1, r = r1 + 1 := ⟨r - 1, by simp at hlen; omega⟩
    obtain ⟨he, hr⟩ := hfail 0 e (by simp)
    simp at he
    have hlast : ¬ ((a : Int) = maxRetries - 1) := by simp at hlen; omega
    rw [retryLoop]
    simp only [he, hr, hlast, if_true, if_false]
    rw [ih r (a + 1) _ _ (by push_cast; omega) (by simp at hlen; omega)
      (by
        intro i e1 hi
        have := hfail (i + 1) e1 (by simpa using hi)
        rw [show a + 1 + i = a + (i + 1) by omega]
        exact this)
      (by
        rw [show a + 1 + es.length = a + (e :: es).length by simp; omega]
        exact hok)]
    simp [backoffDelays]
    omega

theorem backoffDelays_length (errs : List String) :
    ∀ d, (backoffDelays d errs).length = errs.length := by
  induction errs with
  | nil => intro d; rfl
  | cons e es ih => intro d; simp [backoffDelays, ih]

theorem backoffDelays_get (errs : List String) :
    ∀ (d : Int) (i : Nat) (e : String), errs[i]? = some e →
      (backoffDelays d errs)[i]? = some
        (match retrySeconds e with
         | some n => wrap64 (n * second)
         | none => if i = 0 then d else wrap64 ((backoffDelays d errs).getD (i - 1) 0 * 2)) := by
  induction errs with
  | nil => intro d i e h; simp at h
  | cons e0 es ih =>
    intro d i e h
    cases i with
    | zero =>
      simp at h
      subst h
      simp [backoffDelays]
    | succ j =>
      simp at h
      have := ih (wrap64 ((match retrySeconds e0 with
            | some n => wrap64 (n * second)
            | none => d) * 2)) j e h
      simp only [backoffDelays, List.getElem?_cons_succ]
      rw [this]
      cases hrs : retrySeconds e with
      | some n => simp
      | none =>
        simp
        cases j with
        | zero => simp
        | succ k => simp

theorem retrySeconds_nonneg (e : String) (n : Int) (h : retrySeconds e = some n) : 0 ≤ n := by
  unfold retrySeconds at h
  split at h
  · unfold atoiDigits at h
    split at h
    · simp at h; omega
    · simp at h
  · simp at h

theorem isRateLimit_maxRetriesExceeded : isRateLimit "max retries exceeded" = false := by decide

/-- Claim C10: for a positive `maxRetries`, when the first invocation fails with an error
whose message contains neither "Flood control exceeded" nor "Too Many Requests",
`retryWithBackoff` invokes the operation exactly once, never sleeps, and returns that
error unchanged. -/
theorem retryWithBackoff_other_error_returned_at_once (fn : Nat → Option String)
    (maxRetries : Int) (e : String) (hpos : 0 < maxRetries) (h0 : fn 0 = some e)
    (hflood : stringsContains e "Flood control exceeded" = false)
    (hmany : stringsContains e "Too Many Requests" = false) :
    retryWithBackoff fn maxRetries = { err := some e, calls := 1, sleeps := [] } := by
  obtain ⟨r, hr⟩ : ∃ r, maxRetries.toNat = r + 1 := ⟨maxRetries.toNat - 1, by omega⟩
  simp [retryWithBackoff, hr, retryLoop, h0, isRateLimit, hflood, hmany]

/-- Witness for C10: an operation answering "Bad Request: chat not found" is invoked once
and that error comes back. -/
theorem retryWithBackoff_other_error_witness :
    retryWithBackoff (alwaysFailing "Bad Request: chat not found") 3 =
      { err := some "Bad Request: chat not found", calls := 1, sleeps := [] } :=
  retryWithBackoff_other_error_returned_at_once (alwaysFailing "Bad Request: chat not found") 3
    "Bad Request: chat not found" (by decide) rfl (by decide) (by decide)

/-- Claim C8, as stated, fails: with `maxRetries = 1` and an operation that always fails
with "Too Many Requests", the operation is invoked once and the error returned is the
operation's own error, not "max retries exceeded". -/
theorem retryWithBackoff_exhausted_counterexample :
    (∀ i, ∃ e, alwaysFailing "Too Many Requests" i = some e ∧ isRateLimit e = true) ∧
    (retryWithBackoff (alwaysFailing "Too Many Requests") 1).calls = 1 ∧
    (retryWithBackoff (alwaysFailing "Too Many Requests") 1).err = some "Too Many Requests" ∧
    (retryWithBackoff (alwaysFailing "Too Many Requests") 1).err ≠
      some "max retries exceeded" := by
  refine ⟨fun i => ⟨"Too Many Requests", rfl, by decide⟩, by decide, by decide, by decide⟩

/-- Claim C8, amended: for a positive `maxRetries` and an operation failing with a
recognized rate-limit error on every invocation, `retryWithBackoff` invokes the operation
exactly `maxRetries` times, sleeps `maxRetries - 1` times, and returns the error of the
last invocation, which is never the "max retries exceeded" failure. -/
theorem retryWithBackoff_exhausted_returns_last_error (fn : Nat → Option String)
    (maxRetries : Int) (hpos : 0 < maxRetries)
    (hfail : ∀ i, ∃ e, fn i = some e ∧ isRateLimit e = true) :
    ((retryWithBackoff fn maxRetries).calls : Int) = maxRetries ∧
    (retryWithBackoff fn maxRetries).err = fn (maxRetries.toNat - 1) ∧
    ((retryWithBackoff fn maxRetries).sleeps.length : Int) = maxRetries - 1 ∧
    (retryWithBackoff fn maxRetries).err ≠ some "max retries exceeded" := by
  obtain ⟨r, hr⟩ : ∃ r, maxRetries.toNat = r + 1 := ⟨maxRetries.toNat - 1, by omega⟩
  obtain ⟨h1, h2, h3⟩ := retryLoop_exhaust fn maxRetries hfail r 0 second []
    (by push_cast; omega)
  unfold retryWithBackoff
  rw [hr]
  refine ⟨?_, ?_, ?_, ?_⟩
  · rw [h1]; push_cast; omega
  · rw [h2]; simp
  · rw [h3]; simp; omega
  · rw [h2]
    obtain ⟨e, he, hrl⟩ := hfail (0 + r)
    rw [he]
    intro hc
    simp at hc
    rw [hc, isRateLimit_maxRetriesExceeded] at hrl
    exact Bool.noConfusion hrl

/-- Witness for C8 (amended): three attempts against an operation that always answers
"Flood control exceeded". -/
theorem retryWithBackoff_exhausted_witness :
    ((retryWithBackoff (alwaysFailing "Flood control exceeded") 3).calls : Int) = 3 ∧
    (retryWithBackoff (alwaysFailing "Flood control exceeded") 3).err =
      alwaysFailing "Flood control exceeded" ((3 : Int).toNat - 1) ∧
    ((retryWithBackoff (alwaysFailing "Flood control exceeded") 3).sleeps.length : Int)
      = 3 - 1 ∧
    (retryWithBackoff (alwaysFailing "Flood control exceeded") 3).err ≠
      some "max retries exceeded" :=
  retryWithBackoff_exhausted_returns_last_error (alwaysFailing "Flood control exceeded") 3
    (by decide) (fun _ => ⟨"Flood control exceeded", rfl, by decide⟩)

theorem firstErrors_get (fn : Nat → Option String) (k i : Nat) (e : String)
    (h : ((List.range k).map (fun j => (fn j).getD ""))[i]? = some e) :
    i < k ∧ e = (fn i).getD "" := by
  rw [List.getElem?_map] at h
  by_cases hi : i < k
  · rw [List.getElem?_range hi] at h
    simp at h
    exact ⟨hi, h.symm⟩
  · rw [List.getElem?_eq_none (by simpa using hi)] at h
    simp at h

/-- Claim C9, as stated, fails on `int64` overflow: one failure with
"Too Many Requests retry after 9223372037" followed by success gives 2 invocations and 1
sleep, but `time.Sleep` is called with a negative duration (the product of 9223372037 and
`time.Second` wraps around), not with 9223372037 seconds. -/
theorem retryWithBackoff_sleep_counterexample :
    failingThenOk ["Too Many Requests retry after 9223372037"] 0 =
      some "Too Many Requests retry after 9223372037" ∧
    isRateLimit "Too Many Requests retry after 9223372037" = true ∧
    retrySeconds "Too Many Requests retry after 9223372037" = some 9223372037 ∧
    failingThenOk ["Too Many Requests retry after 9223372037"] 1 = none ∧
    retryWithBackoff (failingThenOk ["Too Many Requests retry after 9223372037"]) 2 =
      { err := none, calls := 2, sleeps := [-9223372036709551616] } ∧
    (retryWithBackoff (failingThenOk ["Too Many Requests retry after 9223372037"]) 2).sleeps
      ≠ [9223372037 * second] := by
  refine ⟨rfl, by decide, by decide, rfl, by decide, by decide⟩

/-- Claim C9, amended: when the first `k` invocations fail with a recognized rate-limit
error, invocation `k + 1` succeeds and `k < maxRetries`, `retryWithBackoff` returns
success after exactly `k + 1` invocations and exactly `k` sleeps. The `i`-th sleep is
called with `N * time.Second` computed in `int64` when the `i`-th message carries the hint
`retry after N` (exactly `N` seconds whenever `N ≤ 9223372036`), and otherwise with twice
the previous sleep computed in `int64` (1 second when it is the first). -/
theorem retryWithBackoff_success_after_rate_limits (fn : Nat → Option String)
    (maxRetries : Int) (k : Nat) (hk : (k : Int) < maxRetries)
    (hfail : ∀ i, i < k → ∃ e, fn i = some e ∧ isRateLimit e = true)
    (hok : fn k = none) :
    (retryWithBackoff fn maxRetries).err = none ∧
    (retryWithBackoff fn maxRetries).calls = k + 1 ∧
    (retryWithBackoff fn maxRetries).sleeps.length = k ∧
    (∀ i e, i < k → fn i = some e →
      (retryWithBackoff fn maxRetries).sleeps[i]? = some
        (match retrySeconds e with
         | some n => wrap64 (n * second)
         | none =>
           if i = 0 then second
           else wrap64 ((retryWithBackoff fn maxRetries).sleeps.getD (i - 1) 0 * 2))) ∧
    (∀ i e n, i < k → fn i = some e → retrySeconds e = some n → n ≤ 9223372036 →
      (retryWithBackoff fn maxRetries).sleeps[i]? = some (n * second)) := by
  have hlen : ((List.range k).map (fun j => (fn j).getD "")).length = k := by simp
  have hrun := retryLoop_success fn maxRetries ((List.range k).map (fun j => (fn j).getD ""))
    maxRetries.toNat 0 second [] (by omega) (by rw [hlen]; omega)
    (by
      intro i e hi
      obtain ⟨hik, he⟩ := firstErrors_get fn k i e hi
      obtain ⟨e1, h1, h2⟩ := hfail i hik
      rw [h1] at he
      simp at he
      subst he
      rw [Nat.zero_add]
      exact ⟨h1, h2⟩)
    (by rw [hlen, Nat.zero_add]; exact hok)
  rw [hlen] at hrun
  simp only [List.nil_append, Nat.zero_add] at hrun
  have hget : ∀ i e, i < k → fn i = some e →
      ((List.range k).map (fun j => (fn j).getD ""))[i]? = some e := by
    intro i e hi he
    rw [List.getElem?_map, List.getElem?_range hi]
    simp [he]
  unfold retryWithBackoff
  rw [hrun]
  refine ⟨rfl, rfl, ?_, ?_, ?_⟩
  · simp [backoffDelays_length]
  · intro i e hi he
    exact backoffDelays_get _ second i e (hget i e hi he)
  · intro i e n hi he hn hle
    have := backoffDelays_get _ second i e (hget i e hi he)
    rw [hn] at this
    simp only at this
    rw [this, wrap64_seconds n (retrySeconds_nonneg e n hn) hle]

/-- Witness for C9 (amended): two failures with "Too Many Requests retry after 2" and
then success give 3 invocations and the sleeps 2 s and 2 s, 4 seconds in total. -/
theorem retryWithBackoff_success_witness :
    ((retryWithBackoff (failingThenOk ["Too Many Requests retry after 2",
        "Too Many Requests retry after 2"]) 3).err = none ∧
      (retryWithBackoff (failingThenOk ["Too Many Requests retry after 2",
        "Too Many Requests retry after 2"]) 3).calls = 2 + 1 ∧
      (retryWithBackoff (failingThenOk ["Too Many Requests retry after 2",
        "Too Many Requests retry after 2"]) 3).sleeps.length = 2) ∧
    (retryWithBackoff (failingThenOk ["Too Many Requests retry after 2",
        "Too Many Requests retry after 2"]) 3).sleeps = [2 * second, 2 * second] ∧
    (retryWithBackoff (failingThenOk ["Too Many Requests retry after 2",
        "Too Many Requests retry after 2"]) 3).sleeps.sum = 4 * second := by
  have h := retryWithBackoff_success_after_rate_limits
    (failingThenOk ["Too Many Requests retry after 2", "Too Many Requests retry after 2"]) 3 2
    (by decide)
    (by
      intro i hi
      refine ⟨"Too Many Requests retry after 2", ?_, by decide⟩
      interval_cases i <;> rfl)
    rfl
  exact ⟨⟨h.1, h.2.1, h.2.2.1⟩, by decide, by decide⟩


/-! ## Session store: lemmas -/

theorem since_gt_iff (now u limit : Int) (h0 : minInt64 ≤ limit) (h1 : limit < maxInt64) :
    since now u > limit ↔ now - u > limit := by
  unfold since timeSub
  unfold minInt64 at h0
  unfold maxInt64 at h1
  simp only [minInt64, maxInt64]
  split_ifs <;> omega

theorem since_gt_inactivityLimit (now u : Int) :
    since now u > inactivityLimit ↔ now - u > inactivityLimit :=
  since_gt_iff now u inactivityLimit (by decide) (by decide)

theorem since_gt_editThrottleInterval (now u : Int) :
    since now u > editThrottleInterval ↔ now - u > editThrottleInterval :=
  since_gt_iff now u editThrottleInterval (by decide) (by decide)

theorem getUserContext_stored (s : UserContexts) (u tSince tNow : Int) :
    (getUserContext s u tSince tNow).1 u = some (getUserContext s u tSince tNow).2 := by
  unfold getUserContext
  cases s u <;> simp

theorem getUserContext_lastUpdate (s : UserContexts) (u tSince tNow : Int) :
    (getUserContext s u tSince tNow).2.LastUpdate = tNow := by
  unfold getUserContext
  cases s u <;> simp

theorem getUserContext_messages_absent (s : UserContexts) (u tSince tNow : Int)
    (h : s u = none) : (getUserContext s u tSince tNow).2.Messages = [] := by
  unfold getUserContext
  simp [h]

theorem getUserContext_messages_present (s : UserContexts) (u tSince tNow : Int)
    (c : UserContext) (h : s u = some c) :
    (getUserContext s u tSince tNow).2.Messages =
      if tSince - c.LastUpdate > inactivityLimit then [] else c.Messages := by
  unfold getUserContext
  simp only [h]
  by_cases hc : since tSince c.LastUpdate > inactivityLimit
  · have := (since_gt_inactivityLimit tSince c.LastUpdate).1 hc
    simp [hc, this]
  · have : ¬ (tSince - c.LastUpdate > inactivityLimit) :=
      fun h2 => hc ((since_gt_inactivityLimit tSince c.LastUpdate).2 h2)
    simp [hc, this]

theorem getUserContext_others (s : UserContexts) (u v tSince tNow : Int) (h : v ≠ u) :
    (getUserContext s u tSince tNow).1 v = s v := by
  unfold getUserContext
  cases s u <;> simp [Function.update, h]

/-- Claim C1: for every session map, user id `u` and instant `now`, `getUserContext(u)`
returns the session that the map holds under `u` afterwards; its `LastUpdate` is `now`;
its messages are empty when `u` had no session or when `now - LastUpdate` exceeded
3 minutes, and are otherwise the messages it had before, an elapsed time of exactly
3 minutes included. -/
theorem getUserContext_spec (s : UserContexts) (u now : Int) :
    (getUserContext s u now now).1 u = some (getUserContext s u now now).2 ∧
    (getUserContext s u now now).2.LastUpdate = now ∧
    (s u = none → (getUserContext s u now now).2.Messages = []) ∧
    (∀ c, s u = some c → now - c.LastUpdate > 3 * minute →
      (getUserContext s u now now).2.Messages = []) ∧
    (∀ c, s u = some c → now - c.LastUpdate ≤ 3 * minute →
      (getUserContext s u now now).2.Messages = c.Messages) ∧
    (∀ c, s u = some c → now - c.LastUpdate = 3 * minute →
      (getUserContext s u now now).2.Messages = c.Messages) := by
  refine ⟨getUserContext_stored s u now now, getUserContext_lastUpdate s u now now,
    getUserContext_messages_absent s u now now, ?_, ?_, ?_⟩
  · intro c hc hgt
    have hgt1 : now - c.LastUpdate > inactivityLimit := hgt
    rw [getUserContext_messages_present s u now now c hc, if_pos hgt1]
  · intro c hc hle
    have hle1 : ¬ (now - c.LastUpdate > inactivityLimit) := by
      unfold inactivityLimit; omega
    rw [getUserContext_messages_present s u now now c hc, if_neg hle1]
  · intro c hc heq
    have hle1 : ¬ (now - c.LastUpdate > inactivityLimit) := by
      unfold inactivityLimit; omega
    rw [getUserContext_messages_present s u now now c hc, if_neg hle1]

theorem cleanOldContextsPass_present (s : UserContexts) (now : Int → Int) (u : Int)
    (c : UserContext) (h : s u = some c) :
    cleanOldContextsPass s now u =
      if now u - c.LastUpdate > inactivityLimit then none else some c := by
  unfold cleanOldContextsPass
  simp only [h]
  by_cases hc : since (now u) c.LastUpdate > inactivityLimit
  · have := (since_gt_inactivityLimit (now u) c.LastUpdate).1 hc
    simp [hc, this]
  · have : ¬ (now u - c.LastUpdate > inactivityLimit) :=
      fun h2 => hc ((since_gt_inactivityLimit (now u) c.LastUpdate).2 h2)
    simp [hc, this]

/-- Claim C2: for every session map and sweep instant `now`, one pass of
`cleanOldContexts` removes a session if and only if `now - LastUpdate` is more than
3 minutes; every other session stays under the same user id with its messages and
`LastUpdate` unchanged, in particular one touched 1 second before the sweep, and no
session appears for a user that had none. -/
theorem cleanOldContextsPass_spec (s : UserContexts) (now u : Int) :
    (∀ c, s u = some c →
      (cleanOldContextsPass s (fun _ => now) u = none ↔ now - c.LastUpdate > 3 * minute)) ∧
    (∀ c, s u = some c → ¬ (now - c.LastUpdate > 3 * minute) →
      cleanOldContextsPass s (fun _ => now) u = some c) ∧
    (∀ c, s u = some c → c.LastUpdate = now - second →
      cleanOldContextsPass s (fun _ => now) u = some c) ∧
    (s u = none → cleanOldContextsPass s (fun _ => now) u = none) := by
  refine ⟨?_, ?_, ?_, ?_⟩
  · intro c hc
    rw [cleanOldContextsPass_present s _ u c hc]
    show (if now - c.LastUpdate > 3 * minute then none else some c) = none ↔ _
    split_ifs with h <;> simp [h]
  · intro c hc hle
    have hle1 : ¬ (now - c.LastUpdate > inactivityLimit) := hle
    rw [cleanOldContextsPass_present s _ u c hc, if_neg hle1]
  · intro c hc h1
    have hle1 : ¬ (now - c.LastUpdate > inactivityLimit) := by
      unfold inactivityLimit minute
      rw [h1]; unfold second; omega
    rw [cleanOldContextsPass_present s _ u c hc, if_neg hle1]
  · intro h
    unfold cleanOldContextsPass
    simp [h]

/-! ## Stream relay: lemmas -/

theorem string_append_eq_empty (a b : String) (h : a ++ b = "") : a = "" ∧ b = "" := by
  have hd : (a ++ b).data = [] := by rw [h]
  rw [String.data_append] at hd
  obtain ⟨ha, hb⟩ := List.append_eq_nil.1 hd
  exact ⟨String.ext ha, String.ext hb⟩

theorem foldl_increments_eq_empty (steps : List RelayStep) :
    ∀ text : String, steps.foldl (fun acc step => acc ++ increment step) text = "" →
      text = "" ∧ ∀ st ∈ steps, increment st = "" := by
  induction steps with
  | nil => intro text h; exact ⟨h, by simp⟩
  | cons st rest ih =>
    intro text h
    obtain ⟨h1, h2⟩ := ih _ h
    obtain ⟨h3, h4⟩ := string_append_eq_empty _ _ h1
    refine ⟨h3, ?_⟩
    intro x hx
    rcases List.mem_cons.1 hx with rfl | hx
    · exact h4
    · exact h2 x hx

theorem relayLoop_responseText (chatID messageID : Int) (steps : List RelayStep) :
    ∀ (text : String) (last : Int),
      (relayLoop chatID messageID steps text last).responseText =
        steps.foldl (fun acc step => acc ++ increment step) text := by
  induction steps with
  | nil => intro text last; rfl
  | cons st rest ih =>
    intro text last
    rw [relayLoop, List.foldl_cons]
    by_cases hc : st.response.choices.length > 0 ∧ st.response.choices.headD "" ≠ ""
    · rw [if_pos hc]
      by_cases ht : since st.tSince last > editThrottleInterval
      · rw [if_pos ht]
        simp only [ih]
        rfl
      · rw [if_neg ht, ih]
        rfl
    · rw [if_neg hc, ih]
      have : increment st = "" := by
        unfold increment
        by_contra hne
        apply hc
        refine ⟨?_, hne⟩
        cases hch : st.response.choices with
        | nil => rw [hch] at hne; simp at hne
        | cons a b => simp
      rw [this, String.append_empty]

theorem relayLoop_text_eq_concat (chatID messageID : Int) (steps : List RelayStep) :
    (relayLoop chatID messageID steps "" zeroTime).responseText = concatIncrements steps :=
  relayLoop_responseText chatID messageID steps "" zeroTime

theorem concatIncrements_ne_empty (steps : List RelayStep)
    (h : ∃ st ∈ steps, increment st ≠ "") : concatIncrements steps ≠ "" := by
  intro hc
  obtain ⟨st, hst, hne⟩ := h
  exact hne ((foldl_increments_eq_empty steps "" hc).2 st hst)

theorem foldl_increments_of_all_empty (steps : List RelayStep) :
    ∀ text : String, (∀ st ∈ steps, increment st = "") →
      steps.foldl (fun acc step => acc ++ increment step) text = text := by
  induction steps with
  | nil => intro text _; rfl
  | cons st rest ih =>
    intro text h
    rw [List.foldl_cons, h st (List.mem_cons_self _ _), String.append_empty]
    exact ih text (fun x hx => h x (List.mem_cons_of_mem _ hx))

theorem concatIncrements_eq_empty (steps : List RelayStep)
    (h : ∀ st ∈ steps, increment st = "") : concatIncrements steps = "" :=
  foldl_increments_of_all_empty steps "" h

theorem fallbackShaped_sendEdit_append (chatID messageID : Int) (text : String)
    (mdErr plainErr : Bool) (rest : List Sent) :
    fallbackShaped (sendEdit chatID messageID text mdErr plainErr ++ rest) =
      fallbackShaped rest := by
  cases mdErr <;> simp [sendEdit, fallbackShaped]

theorem relayLoop_sends_shaped (chatID messageID : Int) (steps : List RelayStep) :
    ∀ (text : String) (last : Int) (tail : List Sent), fallbackShaped tail = true →
      fallbackShaped ((relayLoop chatID messageID steps text last).sends ++ tail) = true := by
  induction steps with
  | nil => intro text last tail h; simpa [relayLoop] using h
  | cons st rest ih =>
    intro text last tail h
    rw [relayLoop]
    by_cases hc : st.response.choices.length > 0 ∧ st.response.choices.headD "" ≠ ""
    · rw [if_pos hc]
      by_cases ht : since st.tSince last > editThrottleInterval
      · rw [if_pos ht]
        simp only [List.append_assoc]
        rw [fallbackShaped_sendEdit_append]
        exact ih _ _ tail h
      · rw [if_neg ht]
        exact ih _ _ tail h
    · rw [if_neg hc]
      exact ih _ _ tail h

theorem fallbackShaped_finalEdit (chatID messageID : Int) (text : String)
    (mdErr plainErr : Bool) :
    fallbackShaped (finalEdit chatID messageID text mdErr plainErr) = true := by
  unfold finalEdit
  split_ifs
  · have := fallbackShaped_sendEdit_append chatID messageID text mdErr plainErr []
    rw [List.append_nil] at this
    rw [this]
    rfl
  · rfl

theorem relayLoop_markdown_count (chatID messageID : Int) (steps : List RelayStep) :
    ∀ (text : String) (last : Int),
      ((relayLoop chatID messageID steps text last).sends.filter isMarkdownEdit).length =
        (relayLoop chatID messageID steps text last).edits.length := by
  induction steps with
  | nil => intro text last; rfl
  | cons st rest ih =>
    intro text last
    rw [relayLoop]
    by_cases hc : st.response.choices.length > 0 ∧ st.response.choices.headD "" ≠ ""
    · rw [if_pos hc]
      by_cases ht : since st.tSince last > editThrottleInterval
      · rw [if_pos ht]
        simp only [List.filter_append, List.length_append, List.length_cons, ih]
        cases st.mdErr <;> simp [sendEdit, isMarkdownEdit] <;> omega
      · rw [if_neg ht]
        exact ih _ _
    · rw [if_neg hc]
      exact ih _ _

theorem relayLoop_edits_from_steps (chatID messageID : Int) (steps : List RelayStep) :
    ∀ (text : String) (last : Int),
      ∀ m ∈ (relayLoop chatID messageID steps text last).edits,
        ∃ st ∈ steps, m.checkedAt = st.tSince ∧ m.recordedAt = st.tNow := by
  induction steps with
  | nil => intro text last m hm; simp [relayLoop] at hm
  | cons st rest ih =>
    intro text last m hm
    rw [relayLoop] at hm
    by_cases hc : st.response.choices.length > 0 ∧ st.response.choices.headD "" ≠ ""
    · rw [if_pos hc] at hm
      by_cases ht : since st.tSince last > editThrottleInterval
      · rw [if_pos ht] at hm
        rcases List.mem_cons.1 hm with rfl | hm
        · exact ⟨st, List.mem_cons_self _ _, rfl, rfl⟩
        · obtain ⟨x, hx, h1, h2⟩ := ih _ _ m hm
          exact ⟨x, List.mem_cons_of_mem _ hx, h1, h2⟩
      · rw [if_neg ht] at hm
        obtain ⟨x, hx, h1, h2⟩ := ih _ _ m hm
        exact ⟨x, List.mem_cons_of_mem _ hx, h1, h2⟩
    · rw [if_neg hc] at hm
      obtain ⟨x, hx, h1, h2⟩ := ih _ _ m hm
      exact ⟨x, List.mem_cons_of_mem _ hx, h1, h2⟩

theorem relayLoop_edits_chain (chatID messageID : Int) (steps : List RelayStep) :
    ∀ (text : String) (last : Int) (m0 : EditMark), m0.recordedAt = last →
      List.Chain (fun a b => b.checkedAt - a.recordedAt > editThrottleInterval) m0
        (relayLoop chatID messageID steps text last).edits := by
  induction steps with
  | nil => intro text last m0 _; simp [relayLoop]
  | cons st rest ih =>
    intro text last m0 h0
    rw [relayLoop]
    by_cases hc : st.response.choices.length > 0 ∧ st.response.choices.headD "" ≠ ""
    · rw [if_pos hc]
      by_cases ht : since st.tSince last > editThrottleInterval
      · rw [if_pos ht]
        refine List.Chain.cons ?_ (ih _ _ _ rfl)
        rw [h0]
        exact (since_gt_editThrottleInterval st.tSince last).1 ht
      · rw [if_neg ht]
        exact ih _ _ m0 h0
    · rw [if_neg hc]
      exact ih _ _ m0 h0

theorem chain_spread (l : List EditMark) :
    ∀ a : EditMark,
      List.Chain (fun a b => b.checkedAt - a.recordedAt > editThrottleInterval) a l →
      (∀ m ∈ a :: l, m.checkedAt ≤ m.recordedAt) →
      ∃ b ∈ a :: l, b.checkedAt - a.checkedAt ≥ (l.length : Int) * (editThrottleInterval + 1) := by
  induction l with
  | nil => intro a _ _; exact ⟨a, List.mem_cons_self _ _, by simp⟩
  | cons x rest ih =>
    intro a hch hle
    rw [List.chain_cons] at hch
    obtain ⟨b, hb, hbx⟩ := ih x hch.2 (fun m hm => hle m (List.mem_cons_of_mem _ hm))
    refine ⟨b, List.mem_cons_of_mem _ hb, ?_⟩
    have h1 := hle a (List.mem_cons_self _ _)
    have h2 := hch.1
    simp only [List.length_cons]
    push_cast
    have : ((rest.length : Int) + 1) * (editThrottleInterval + 1) =
        (rest.length : Int) * (editThrottleInterval + 1) + (editThrottleInterval + 1) := by ring
    rw [this]
    omega

theorem relayLoop_no_content (chatID messageID : Int) (steps : List RelayStep) :
    ∀ (text : String) (last : Int), (∀ st ∈ steps, increment st = "") →
      relayLoop chatID messageID steps text last =
        { responseText := text, lastEditTime := last, sends := [], edits := [] } := by
  induction steps with
  | nil => intro text last _; rfl
  | cons st rest ih =>
    intro text last h
    have hst : st.response.choices.headD "" = "" := h st (List.mem_cons_self _ _)
    rw [relayLoop, if_neg (fun hc => hc.2 hst)]
    exact ih text last (fun x hx => h x (List.mem_cons_of_mem _ hx))

theorem fallbackShaped_examples :
    fallbackShaped [Sent.mk (.editMessageText 1 2 "a" "Markdown") false] = true ∧
    fallbackShaped [Sent.mk (.editMessageText 1 2 "a" "Markdown") true,
      Sent.mk (.editMessageText 1 2 "a" "") true] = true ∧
    fallbackShaped [Sent.mk (.editMessageText 1 2 "a" "Markdown") true] = false ∧
    fallbackShaped [Sent.mk (.editMessageText 1 2 "a" "") false] = false ∧
    fallbackShaped [Sent.mk (.editMessageText 1 2 "a" "Markdown") false,
      Sent.mk (.editMessageText 1 2 "a" "") false] = false ∧
    fallbackShaped [Sent.mk (.editMessageText 1 2 "a" "Markdown") true,
      Sent.mk (.editMessageText 1 2 "b" "") false] = false ∧
    fallbackShaped [Sent.mk (.editMessageText 1 2 "a" "Markdown") true,
      Sent.mk (.editMessageText 1 2 "a" "") false,
      Sent.mk (.editMessageText 1 2 "a" "") false] = false := by
  decide

theorem handleNew_clears (s : UserContexts) (update : Update) (tSince tNow tClear : Int)
    (sendErr : Bool) :
    (handleNew s update tSince tNow tClear sendErr).1 update.userID =
      some { Messages := [], LastUpdate := tClear } := by
  simp [handleNew, checkChannelSubscription]

theorem sendEdit_eq_specEditAttempt (chatID messageID : Int) (text : String)
    (mdErr plainErr : Bool) :
    sendEdit chatID messageID text mdErr plainErr =
      specEditAttempt chatID messageID text mdErr plainErr := by
  cases mdErr <;> simp [sendEdit, specEditAttempt]

theorem relayLoop_sends_eq (chatID messageID : Int) (steps : List RelayStep) :
    ∀ (text : String) (last : Int),
      (relayLoop chatID messageID steps text last).sends =
        (throttledEdits steps text last).flatMap
          (fun e => specEditAttempt chatID messageID e.text e.step.mdErr e.step.plainErr) := by
  induction steps with
  | nil => intro text last; rfl
  | cons st rest ih =>
    intro text last
    rw [relayLoop, throttledEdits]
    by_cases hc : st.response.choices.length > 0 ∧ st.response.choices.headD "" ≠ ""
    · rw [if_pos hc, if_pos hc]
      by_cases ht : since st.tSince last > editThrottleInterval
      · rw [if_pos ht, if_pos ht]
        simp only [List.flatMap_cons, ih, sendEdit_eq_specEditAttempt]
      · rw [if_neg ht, if_neg ht]
        exact ih _ _
    · rw [if_neg hc, if_neg hc]
      exact ih _ _

theorem relayLoop_edits_eq (chatID messageID : Int) (steps : List RelayStep) :
    ∀ (text : String) (last : Int),
      (relayLoop chatID messageID steps text last).edits =
        (throttledEdits steps text last).map
          (fun e => EditMark.mk e.text e.step.tSince e.step.tNow) := by
  induction steps with
  | nil => intro text last; rfl
  | cons st rest ih =>
    intro text last
    rw [relayLoop, throttledEdits]
    by_cases hc : st.response.choices.length > 0 ∧ st.response.choices.headD "" ≠ ""
    · rw [if_pos hc, if_pos hc]
      by_cases ht : since st.tSince last > editThrottleInterval
      · rw [if_pos ht, if_pos ht]
        simp only [List.map_cons, ih]
      · rw [if_neg ht, if_neg ht]
        exact ih _ _
    · rw [if_neg hc, if_neg hc]
      exact ih _ _

/-! ## `handleMessage`: the run that reaches the relay -/

theorem handleMessage_relay (s : UserContexts) (update : Update) (env : MessageEnv)
    (userText : String) (stream : CompletionStream) (messageID : Int)
    (htext : userTextOf update env = some userText) (hstream : env.stream = .ok stream)
    (hsent : env.placeholder = .ok messageID) :
    (handleMessage s update env).sends =
      typingSent update env :: placeholderSent update ::
        ((relayLoop update.chatID messageID stream.steps "" zeroTime).sends ++
          finalEdit update.chatID messageID
            (relayLoop update.chatID messageID stream.steps "" zeroTime).responseText
            env.finalMdErr env.finalPlainErr) ∧
    (handleMessage s update env).userContexts update.userID = some
      { Messages := (getUserContext s update.userID env.tSince env.tNow).2.Messages ++
          [{ Role := ChatMessageRoleUser, Content := userText },
           { Role := ChatMessageRoleAssistant,
             Content :=
               (relayLoop update.chatID messageID stream.steps "" zeroTime).responseText }],
        LastUpdate := env.tUser } := by
  unfold handleMessage
  simp [checkChannelSubscription, htext, hstream, hsent, typingSent, placeholderSent]

theorem handleMessage_no_relay (s : UserContexts) (update : Update) (env : MessageEnv)
    (userText : String) (htext : userTextOf update env = some userText)
    (hfail : (∃ e, env.stream = .error e) ∨
      (∃ stream e, env.stream = .ok stream ∧ env.placeholder = .error e)) :
    (handleMessage s update env).userContexts update.userID = some
      { Messages := (getUserContext s update.userID env.tSince env.tNow).2.Messages ++
          [{ Role := ChatMessageRoleUser, Content := userText }],
        LastUpdate := env.tUser } := by
  unfold handleMessage
  rcases hfail with ⟨e, he⟩ | ⟨stream, e, hs, he⟩
  · simp [checkChannelSubscription, htext, he]
  · simp [checkChannelSubscription, htext, hs, he]

theorem getLast_sendEdit (pre : List Sent) (chatID messageID : Int) (text : String)
    (mdErr plainErr : Bool) :
    ∃ e, (pre ++ sendEdit chatID messageID text mdErr plainErr).getLast? = some e ∧
      ∃ parseMode, e.req = .editMessageText chatID messageID text parseMode := by
  cases mdErr
  · refine ⟨Sent.mk (.editMessageText chatID messageID text "Markdown") false, ?_,
      "Markdown", rfl⟩
    simp only [sendEdit, Bool.false_eq_true, if_false]
    exact List.getLast?_concat _
  · refine ⟨Sent.mk (.editMessageText chatID messageID text "") plainErr, ?_, "", rfl⟩
    simp only [sendEdit, if_true]
    rw [show pre ++ [Sent.mk (.editMessageText chatID messageID text "Markdown") true,
        Sent.mk (.editMessageText chatID messageID text "") plainErr] =
        (pre ++ [Sent.mk (.editMessageText chatID messageID text "Markdown") true]) ++
        [Sent.mk (.editMessageText chatID messageID text "") plainErr] by simp]
    exact List.getLast?_concat _

/-- Claim C3: in every run of `handleMessage` whose stream delivers at least one
non-empty increment, whatever error ends the stream (`stop` is "EOF" or anything else),
the last `Send` of the run is an edit of the placeholder message whose text is the
concatenation, in arrival order, of all increments received. -/
theorem handleMessage_final_edit_carries_all (s : UserContexts) (update : Update)
    (env : MessageEnv) (userText : String) (stream : CompletionStream) (messageID : Int)
    (htext : userTextOf update env = some userText) (hstream : env.stream = .ok stream)
    (hsent : env.placeholder = .ok messageID)
    (hcontent : ∃ st ∈ stream.steps, increment st ≠ "") :
    ∃ e, (handleMessage s update env).sends.getLast? = some e ∧
      ∃ parseMode, e.req =
        .editMessageText update.chatID messageID (concatIncrements stream.steps) parseMode := by
  rw [(handleMessage_relay s update env userText stream messageID htext hstream hsent).1,
    relayLoop_text_eq_concat]
  unfold finalEdit
  rw [if_pos (concatIncrements_ne_empty stream.steps hcontent)]
  have := getLast_sendEdit
    (typingSent update env :: placeholderSent update ::
      (relayLoop update.chatID messageID stream.steps "" zeroTime).sends)
    update.chatID messageID (concatIncrements stream.steps) env.finalMdErr env.finalPlainErr
  simpa using this

/-- Witness for C3: a stream that delivers "Hello" and ", wo" and then fails with
"unexpected EOF" ends with an edit whose text is "Hello, wo". -/
theorem handleMessage_final_edit_witness :
    ∃ e, (handleMessage emptyContexts sampleUpdate
        (sampleEnv [plainStep "Hello" (101 * second), plainStep ", wo" (102 * second)]
          "unexpected EOF")).sends.getLast? = some e ∧
      ∃ parseMode, e.req = .editMessageText 7 42 "Hello, wo" parseMode := by
  have h := handleMessage_final_edit_carries_all emptyContexts sampleUpdate
    (sampleEnv [plainStep "Hello" (101 * second), plainStep ", wo" (102 * second)]
      "unexpected EOF") "hi"
    { steps := [plainStep "Hello" (101 * second), plainStep ", wo" (102 * second)],
      stop := "unexpected EOF" } 42 rfl rfl rfl
    ⟨plainStep "Hello" (101 * second), by simp, by decide⟩
  have hc : concatIncrements [plainStep "Hello" (101 * second),
      plainStep ", wo" (102 * second)] = "Hello, wo" := by decide
  rw [hc] at h
  exact h

/-- Claim C4, as stated, fails for a stream that spans 0 ms: a single increment is
edited at once (the throttle starts from the zero `time.Time`), which is 1 non-final
edit, while the bound for `T = 0` is 0. -/
theorem relayLoop_throttle_counterexample :
    (∀ a ∈ [plainStep "x" (1700000000 * second)],
      ∀ b ∈ [plainStep "x" (1700000000 * second)],
        b.tSince - a.tSince ≤ 0 * millisecond) ∧
    (relayLoop 7 42 [plainStep "x" (1700000000 * second)] "" zeroTime).edits.length = 1 ∧
    ((relayLoop 7 42 [plainStep "x" (1700000000 * second)] "" zeroTime).sends.filter
      isMarkdownEdit).length = 1 ∧
    ¬ ((1 : Int) ≤ (0 + 499) / 500) := by
  refine ⟨by decide, by decide, by decide, by decide⟩

/-- Claim C4, amended: for every sequence of stream reads and clock readings, any two
consecutive throttled edits of the relay loop are more than 500 ms apart, measured from
the reading stored after the earlier edit to the reading tested before the later one;
the throttled edits are exactly the Markdown attempts of the loop; and when no reading
stored after an edit is earlier than the reading tested before it, a stream whose reads
lie within `T` milliseconds causes at most `max 1 ⌈T/500⌉` throttled edits. -/
theorem relayLoop_throttle_bound (chatID messageID : Int) (steps : List RelayStep) :
    List.Chain' (fun a b => b.checkedAt - a.recordedAt > 500 * millisecond)
      (relayLoop chatID messageID steps "" zeroTime).edits ∧
    ((relayLoop chatID messageID steps "" zeroTime).sends.filter isMarkdownEdit).length =
      (relayLoop chatID messageID steps "" zeroTime).edits.length ∧
    (∀ T : Int, (∀ st ∈ steps, st.tSince ≤ st.tNow) →
      (∀ a ∈ steps, ∀ b ∈ steps, b.tSince - a.tSince ≤ T * millisecond) →
      ((relayLoop chatID messageID steps "" zeroTime).edits.length : Int) ≤
        max 1 ((T + 499) / 500)) := by
  have hchain := relayLoop_edits_chain chatID messageID steps "" zeroTime
    { text := "", checkedAt := zeroTime, recordedAt := zeroTime } rfl
  have hfrom := relayLoop_edits_from_steps chatID messageID steps "" zeroTime
  refine ⟨?_, relayLoop_markdown_count chatID messageID steps "" zeroTime, ?_⟩
  · have hc : List.Chain' (fun a b : EditMark =>
        b.checkedAt - a.recordedAt > editThrottleInterval)
        ({ text := "", checkedAt := zeroTime, recordedAt := zeroTime } ::
          (relayLoop chatID messageID steps "" zeroTime).edits) := hchain
    exact hc.tail
  · intro T hclock hspan
    cases hed : (relayLoop chatID messageID steps "" zeroTime).edits with
    | nil => simp
    | cons a l =>
      rw [hed] at hchain hfrom
      rw [List.chain_cons] at hchain
      obtain ⟨b, hb, hspread⟩ := chain_spread l a hchain.2 (by
        intro m hm
        obtain ⟨st, hst, h1, h2⟩ := hfrom m hm
        rw [h1, h2]
        exact hclock st hst)
      obtain ⟨sa, hsa, ha1, _⟩ := hfrom a (List.mem_cons_self _ _)
      obtain ⟨sb, hsb, hb1, _⟩ := hfrom b hb
      have hT := hspan sa hsa sb hsb
      rw [← ha1, ← hb1] at hT
      simp only [List.length_cons]
      push_cast
      simp only [editThrottleInterval, millisecond] at hspread
      simp only [millisecond] at hT
      have hl : (0 : Int) ≤ (l.length : Int) := Int.ofNat_nonneg _
      rcases Nat.eq_zero_or_pos l.length with h0 | hpos
      · rw [h0]; simp
      · have hpos1 : (1 : Int) ≤ (l.length : Int) := by exact_mod_cast hpos
        apply le_max_of_le_right
        omega

/-- Witness for C4 (amended): increments every 100 ms over 2 seconds cause at most 4
throttled edits. -/
theorem relayLoop_ticks100ms_witness :
    ((relayLoop 7 42 ticks100ms "" zeroTime).edits.length : Int) ≤ 4 := by
  have h := (relayLoop_throttle_bound 7 42 ticks100ms).2.2 2000 (by decide) (by decide)
  have hm : max (1 : Int) ((2000 + 499) / 500) = 4 := by decide
  rw [hm] at h
  exact h

/-- Claim C7: in every run of `handleMessage` that reaches the relay, the `Send` calls
after the typing action and the placeholder are exactly the edit attempts of the relay,
in order: one attempt for every throttled edit of the loop (the edits recorded by
`relayLoop`) and, when any text was received, one final attempt carrying the whole text.
Every attempt is first sent with Markdown formatting and, if and only if that call fails,
the same edit (same chat, same message id, same text) is sent exactly once more with plain
formatting. Whatever the outcomes of the Markdown attempts and of the plain retries, the
stream is consumed to its end: the text of the final attempt and of the stored assistant
entry is the concatenation of the increments of the whole stream. -/
theorem handleMessage_edit_fallback_shape (s : UserContexts) (update : Update)
    (env : MessageEnv) (userText : String) (stream : CompletionStream) (messageID : Int)
    (htext : userTextOf update env = some userText) (hstream : env.stream = .ok stream)
    (hsent : env.placeholder = .ok messageID) :
    (handleMessage s update env).sends =
      typingSent update env :: placeholderSent update ::
        ((throttledEdits stream.steps "" zeroTime).flatMap
            (fun e => specEditAttempt update.chatID messageID e.text e.step.mdErr
              e.step.plainErr) ++
          (if concatIncrements stream.steps ≠ "" then
            specEditAttempt update.chatID messageID (concatIncrements stream.steps)
              env.finalMdErr env.finalPlainErr
           else [])) ∧
    (relayLoop update.chatID messageID stream.steps "" zeroTime).edits =
      (throttledEdits stream.steps "" zeroTime).map
        (fun e => EditMark.mk e.text e.step.tSince e.step.tNow) ∧
    fallbackShaped ((handleMessage s update env).sends.drop 2) = true ∧
    ∃ c, (handleMessage s update env).userContexts update.userID = some c ∧
      c.Messages.getLast? = some
        { Role := ChatMessageRoleAssistant, Content := concatIncrements stream.steps } := by
  obtain ⟨h1, h2⟩ := handleMessage_relay s update env userText stream messageID htext
    hstream hsent
  refine ⟨?_, relayLoop_edits_eq _ _ _ _ _, ?_, _, h2, ?_⟩
  · rw [h1, relayLoop_sends_eq, relayLoop_text_eq_concat]
    unfold finalEdit
    by_cases hne : concatIncrements stream.steps ≠ ""
    · rw [if_pos hne, if_pos hne]
      cases env.finalMdErr <;> simp [sendEdit, specEditAttempt]
    · rw [if_neg hne, if_neg hne]
  · rw [h1]
    exact relayLoop_sends_shaped _ _ _ _ _ _ (fallbackShaped_finalEdit _ _ _ _ _)
  · rw [relayLoop_text_eq_concat]
    simp

/-- Witness for C7: "Hello" arrives at 101 s and ", wo" at 102 s, and every Markdown
attempt and every plain retry fails. Each of the two throttled edits and the final edit
is sent in Markdown and then once in plain, and the whole text "Hello, wo" is stored. -/
theorem handleMessage_all_edits_failing_witness :
    (handleMessage emptyContexts sampleUpdate
        (failingEnv [failingStep "Hello" (101 * second), failingStep ", wo" (102 * second)]
          "EOF")).sends =
      [Sent.mk (.chatAction 7 "typing") false,
       Sent.mk (.message 7 "..." "") false,
       Sent.mk (.editMessageText 7 42 "Hello" "Markdown") true,
       Sent.mk (.editMessageText 7 42 "Hello" "") true,
       Sent.mk (.editMessageText 7 42 "Hello, wo" "Markdown") true,
       Sent.mk (.editMessageText 7 42 "Hello, wo" "") true,
       Sent.mk (.editMessageText 7 42 "Hello, wo" "Markdown") true,
       Sent.mk (.editMessageText 7 42 "Hello, wo" "") true] ∧
    ∃ c, (handleMessage emptyContexts sampleUpdate
        (failingEnv [failingStep "Hello" (101 * second), failingStep ", wo" (102 * second)]
          "EOF")).userContexts 7 = some c ∧
      c.Messages.getLast? = some
        { Role := ChatMessageRoleAssistant, Content := "Hello, wo" } := by
  obtain ⟨_, _, _, c, hc1, hc2⟩ := handleMessage_edit_fallback_shape emptyContexts
    sampleUpdate
    (failingEnv [failingStep "Hello" (101 * second), failingStep ", wo" (102 * second)]
      "EOF") "hi"
    { steps := [failingStep "Hello" (101 * second), failingStep ", wo" (102 * second)],
      stop := "EOF" } 42 rfl rfl rfl
  refine ⟨by decide, c, hc1, ?_⟩
  rw [hc2]
  decide

/-- Claim C5, as stated, fails: when the stream opens and ends at once with "EOF", the
run still appends an assistant entry (with empty content), so the session does not end
with the user entry. -/
theorem handleMessage_empty_stream_counterexample :
    (∀ st ∈ ([] : List RelayStep), increment st = "") ∧
    (handleMessage emptyContexts sampleUpdate (sampleEnv [] "EOF")).userContexts 7 = some
      { Messages := [{ Role := ChatMessageRoleUser, Content := "hi" },
                     { Role := ChatMessageRoleAssistant, Content := "" }],
        LastUpdate := 100 * second } ∧
    (handleMessage emptyContexts sampleUpdate (sampleEnv [] "EOF")).sends =
      [typingSent sampleUpdate (sampleEnv [] "EOF"), placeholderSent sampleUpdate] := by
  refine ⟨by simp, by decide, by decide⟩

/-- Claim C5, amended: in every run of `handleMessage` that obtains the user text, if the
stream opens, the placeholder is sent and the stream yields no content at all, no edit
is sent and the session ends with the user entry followed by an assistant entry with
empty content; the session ends with the user entry only when the run stops before the
relay, because the stream could not be opened or the placeholder could not be sent. -/
theorem handleMessage_no_content_appends_empty (s : UserContexts) (update : Update) (env : MessageEnv)
    (userText : String) (htext : userTextOf update env = some userText) :
    (∀ stream messageID, env.stream = .ok stream → env.placeholder = .ok messageID →
      (∀ st ∈ stream.steps, increment st = "") →
      (handleMessage s update env).sends =
        [typingSent update env, placeholderSent update] ∧
      ∃ c, (handleMessage s update env).userContexts update.userID = some c ∧
        c.Messages = (getUserContext s update.userID env.tSince env.tNow).2.Messages ++
          [{ Role := ChatMessageRoleUser, Content := userText },
           { Role := ChatMessageRoleAssistant, Content := "" }]) ∧
    ((∃ e, env.stream = .error e) ∨
        (∃ stream e, env.stream = .ok stream ∧ env.placeholder = .error e) →
      ∃ c, (handleMessage s update env).userContexts update.userID = some c ∧
        c.Messages = (getUserContext s update.userID env.tSince env.tNow).2.Messages ++
          [{ Role := ChatMessageRoleUser, Content := userText }]) := by
  constructor
  · intro stream messageID hstream hsent hnone
    obtain ⟨h1, h2⟩ := handleMessage_relay s update env userText stream messageID htext
      hstream hsent
    have htxt : (relayLoop update.chatID messageID stream.steps "" zeroTime).responseText
        = "" := by
      rw [relayLoop_text_eq_concat]
      exact concatIncrements_eq_empty stream.steps hnone
    have hsends : (relayLoop update.chatID messageID stream.steps "" zeroTime).sends
        = [] := by
      rw [relayLoop_no_content update.chatID messageID stream.steps "" zeroTime hnone]
    refine ⟨?_, _, h2, ?_⟩
    · rw [h1, htxt, hsends]
      simp [finalEdit]
    · rw [htxt]
  · intro hfail
    exact ⟨_, handleMessage_no_relay s update env userText htext hfail, rfl⟩

/-- Witness for C5 (amended): the run on an empty stream. -/
theorem handleMessage_empty_stream_witness :
    ∃ c, (handleMessage emptyContexts sampleUpdate (sampleEnv [] "EOF")).userContexts
        sampleUpdate.userID = some c ∧
      c.Messages = (getUserContext emptyContexts sampleUpdate.userID
          (sampleEnv [] "EOF").tSince (sampleEnv [] "EOF").tNow).2.Messages ++
        [{ Role := ChatMessageRoleUser, Content := "hi" },
         { Role := ChatMessageRoleAssistant, Content := "" }] :=
  ((handleMessage_no_content_appends_empty emptyContexts sampleUpdate (sampleEnv [] "EOF") "hi" rfl).1
    { steps := [], stop := "EOF" } 42 rfl rfl (by simp)).2

/-- Claim C6 at a failing input: user 7 sends "hi" at 100 s and the reply "ok" arrives
at 350 s. The run appends the assistant entry after that reading but leaves `LastUpdate`
at 100 s, the instant of the user entry; a `getUserContext` at 351 s then finds the session
inactive and wipes the conversation. -/
theorem handleMessage_assistant_append_keeps_lastUpdate :
    (handleMessage emptyContexts sampleUpdate
        (sampleEnv [plainStep "ok" (350 * second)] "EOF")).userContexts 7 = some
      { Messages := [{ Role := ChatMessageRoleUser, Content := "hi" },
                     { Role := ChatMessageRoleAssistant, Content := "ok" }],
        LastUpdate := 100 * second } ∧
    (getUserContext
        (handleMessage emptyContexts sampleUpdate
          (sampleEnv [plainStep "ok" (350 * second)] "EOF")).userContexts
        7 (351 * second) (351 * second)).2.Messages = [] := by
  refine ⟨by decide, by decide⟩

end VityaBot
